import Mathlib

/-!
# Shallow embedding of the av1-obu-parser core

This file embeds the OBU (Open Bitstream Unit) parsing core of the
`av1-obu-parser` repository: the bit-level `Buffer` cursor, the OBU
header/extension/type decoders, the decode context, and the
`ObuParser::parse` orchestration with its scalability-layer drop rule,
together with theorems checking the repository's specification against
this embedding.

The repository's `src/buffer.rs` is not part of the available sources
(only its callers in `src/obu/mod.rs` are), so `Buffer` and its four
operations are modelled from the specification's §4.1 contract. The
collaborator decoders for sequence headers and frame headers
(`sequence_header.rs`, `frame_header.rs`) are likewise absent; their
result types are kept as type parameters and the sequence-header
decoder as a function parameter of `parse`, matching the spec's
"external collaborator" interface. `frame.rs` is present: `Frame` is a
fieldless struct whose `decode` body is `todo!()`, modelled by an
explicit `todo` outcome.
-/

/-- Modelled from the spec: the only failure of a `Buffer` read or seek is a
typed out-of-bounds error (`src/buffer.rs` is absent from the sources). -/
inductive BufferError where
  | outOfBounds
deriving DecidableEq

/-- Modelled from the spec: `Buffer` wraps a byte slice with a bit-granularity
read position; invariant `0 ≤ bit_position ≤ 8 * bytes.length` is maintained by
every operation rejecting reads past the end (`src/buffer.rs` is absent from
the sources). Bytes are naturals below 256. -/
structure Buffer where
  bytes : List Nat
  bit_position : Nat
deriving DecidableEq

/-- The bit of `bytes` at absolute bit index `p`, MSB-first within each byte
(the AV1 `f(n)` bit order): bit 0 of the stream is the most significant bit
of byte 0. -/
def bitAt (bytes : List Nat) (p : Nat) : Nat :=
  bytes.getD (p / 8) 0 / 2 ^ (7 - p % 8) % 2

/-- The unsigned value of the `n` bits starting at bit position `pos`,
read MSB-first: each successive bit enters at the least-significant end. -/
def readVal (bytes : List Nat) (pos : Nat) : Nat → Nat
  | 0 => 0
  | n + 1 => readVal bytes pos n * 2 + bitAt bytes (pos + n)

/-- Modelled from the spec: `get_bits(n)` consumes `n` bits MSB-first and
advances the position by `n`; fails with `OutOfBounds` when consumption
would advance the bit position past `8 * bytes.length`. -/
def Buffer.get_bits (buf : Buffer) (n : Nat) : Except BufferError (Nat × Buffer) :=
  if buf.bit_position + n ≤ 8 * buf.bytes.length then
    .ok (readVal buf.bytes buf.bit_position n, ⟨buf.bytes, buf.bit_position + n⟩)
  else
    .error .outOfBounds

/-- Modelled from the spec: `get_bit()` consumes exactly one bit, returning it
as a boolean; same bounds failure as `get_bits`. -/
def Buffer.get_bit (buf : Buffer) : Except BufferError (Bool × Buffer) :=
  if buf.bit_position + 1 ≤ 8 * buf.bytes.length then
    .ok (bitAt buf.bytes buf.bit_position == 1, ⟨buf.bytes, buf.bit_position + 1⟩)
  else
    .error .outOfBounds

/-- Modelled from the spec: `seek_bits(n)` advances the position by `n`
without returning a value; same bounds failure as `get_bits`. -/
def Buffer.seek_bits (buf : Buffer) (n : Nat) : Except BufferError Buffer :=
  if buf.bit_position + n ≤ 8 * buf.bytes.length then
    .ok ⟨buf.bytes, buf.bit_position + n⟩
  else
    .error .outOfBounds

/-- Modelled from the spec: the recursion of `get_leb128`, reading one byte
per group, its low 7 bits contributing `base * 2 ^ (7 * i)` at group index
`i`, the high bit signaling continuation, clamped at the AV1 spec's 8-group
limit (the `fuel` argument). -/
def Buffer.get_leb128_aux : Nat → Nat → Nat → Buffer → Except BufferError (Nat × Buffer)
  | 0, _, acc, buf => .ok (acc, buf)
  | fuel + 1, i, acc, buf =>
    match buf.get_bits 8 with
    | .error e => .error e
    | .ok (b, buf1) =>
      let acc1 := acc + b % 128 * 2 ^ (7 * i)
      if b < 128 then .ok (acc1, buf1)
      else Buffer.get_leb128_aux fuel (i + 1) acc1 buf1

/-- Modelled from the spec: `get_leb128()` decodes a little-endian base-128
variable-length unsigned integer, one byte at a time, failing with
`OutOfBounds` if the stream ends before a terminating (high-bit-clear) byte,
clamped at the 8-group limit. -/
def Buffer.get_leb128 (buf : Buffer) : Except BufferError (Nat × Buffer) :=
  Buffer.get_leb128_aux 8 0 0 buf

/-- The standard little-endian base-128 encoding of `v`: each byte carries the
next 7 low-order value bits; the high bit is set exactly on non-final bytes. -/
def leb128Encode (v : Nat) : List Nat :=
  if h : v < 128 then [v]
  else (v % 128 + 128) :: leb128Encode (v / 128)
decreasing_by exact Nat.div_lt_self (by omega) (by omega)

/-- `ObuUnknownError` from `src/obu/mod.rs`: which closed-set field held an
out-of-range value. -/
inductive ObuUnknownError where
  | obuHeaderType
  | profile
  | colorPrimaries
  | transferCharacteristics
  | matrixCoefficients
  | chromaSamplePosition
  | metadataType
  | scalabilityModeIdc
  | frameType
  | interpolationFilter
  | frameTypeRefIndex
deriving DecidableEq

/-- `ObuError` from `src/obu/mod.rs`. -/
inductive ObuError where
  | unknown (e : ObuUnknownError)
  | notFoundSequenceHeader
deriving DecidableEq

/-- The error type flowing out of a parse call: either a typed `ObuError`
from the decoding logic, or the modelled out-of-bounds cursor failure. -/
inductive ParseError where
  | obu (e : ObuError)
  | outOfBounds
deriving DecidableEq

/-- Outcome of a decode step that may also reach an unimplemented `todo!()`
branch of the source: `ok`, a typed error, or `todo` (the panic). -/
inductive PResult (α : Type) where
  | ok (a : α)
  | err (e : ParseError)
  | todo
deriving DecidableEq

/-- `ObuType` from `src/obu/mod.rs`: the 16 possible 4-bit type codes, with
explicit reserved-value carrying. -/
inductive ObuType where
  | reserved (code : Nat)
  | sequenceHeader
  | temporalDelimiter
  | frameHeader
  | tileGroup
  | metadata
  | frame
  | redundantFrameHeader
  | tileList
  | padding
deriving DecidableEq

/-- `TryFrom<u8> for ObuType` from `src/obu/mod.rs`: 0 and 9..=14 map to
`Reserved(value)`, 1..=8 and 15 to the named variants, anything else to
`Unknown(ObuHeaderType)`. -/
def ObuType.tryFrom (value : Nat) : Except ObuError ObuType :=
  if value = 0 ∨ (9 ≤ value ∧ value ≤ 14) then .ok (.reserved value)
  else if value = 1 then .ok .sequenceHeader
  else if value = 2 then .ok .temporalDelimiter
  else if value = 3 then .ok .frameHeader
  else if value = 4 then .ok .tileGroup
  else if value = 5 then .ok .metadata
  else if value = 6 then .ok .frame
  else if value = 7 then .ok .redundantFrameHeader
  else if value = 8 then .ok .tileList
  else if value = 15 then .ok .padding
  else .error (.unknown .obuHeaderType)

/-- `ObuHeaderExtension` from `src/obu/mod.rs`. -/
structure ObuHeaderExtension where
  temporal_id : Nat
  spatial_id : Nat
deriving DecidableEq

/-- `ObuHeaderExtension::decode` from `src/obu/mod.rs`: 3-bit `temporal_id`,
2-bit `spatial_id`, then a 3-bit reserved field skipped via `seek_bits`. -/
def ObuHeaderExtension.decode (buf : Buffer) :
    Except ParseError (ObuHeaderExtension × Buffer) :=
  match buf.get_bits 3 with
  | .error _ => .error .outOfBounds
  | .ok (temporal_id, buf1) =>
    match buf1.get_bits 2 with
    | .error _ => .error .outOfBounds
    | .ok (spatial_id, buf2) =>
      match buf2.seek_bits 3 with
      | .error _ => .error .outOfBounds
      | .ok buf3 => .ok (⟨temporal_id, spatial_id⟩, buf3)

/-- `ObuHeader` from `src/obu/mod.rs`. -/
structure ObuHeader where
  type : ObuType
  has_size : Bool
  extension : Option ObuHeaderExtension
deriving DecidableEq

/-- `ObuHeader::decode` from `src/obu/mod.rs`: skip the forbidden bit, read
the 4-bit type code through `ObuType::try_from`, read the extension flag and
the has-size flag, skip the reserved bit, then conditionally decode the
one-byte extension. -/
def ObuHeader.decode (buf : Buffer) : Except ParseError (ObuHeader × Buffer) :=
  match buf.seek_bits 1 with
  | .error _ => .error .outOfBounds
  | .ok buf1 =>
    match buf1.get_bits 4 with
    | .error _ => .error .outOfBounds
    | .ok (code, buf2) =>
      match ObuType.tryFrom code with
      | .error e => .error (.obu e)
      | .ok type =>
        match buf2.get_bit with
        | .error _ => .error .outOfBounds
        | .ok (obu_extension_flag, buf3) =>
          match buf3.get_bit with
          | .error _ => .error .outOfBounds
          | .ok (has_size, buf4) =>
            match buf4.seek_bits 1 with
            | .error _ => .error .outOfBounds
            | .ok buf5 =>
              if obu_extension_flag then
                match ObuHeaderExtension.decode buf5 with
                | .error e => .error e
                | .ok (ext, buf6) => .ok (⟨type, has_size, some ext⟩, buf6)
              else
                .ok (⟨type, has_size, none⟩, buf5)

/-- `ObuContext` from `src/obu/mod.rs`. The sequence-header and frame-type
values come from source files absent from the available sources, so their
types are parameters `SH` and `FT`. -/
structure ObuContext (SH FT : Type) where
  sequence_header : Option SH
  obu_header_extension : Option ObuHeaderExtension
  num_planes : Nat
  seen_frame_header : Bool
  frame_is_intra : Bool
  order_hint : Nat
  frame_width : Nat
  frame_height : Nat
  superres_denom : Nat
  upscaled_width : Nat
  mi_cols : Nat
  mi_rows : Nat
  render_width : Nat
  render_height : Nat
  delta_frame_id : Nat
  bit_depth : Nat
  order_hint_bits : Nat
  operating_point : Nat
  operating_point_idc : Nat
  frame_type_refs : List FT

/-- The `#[derive(Default)]` context: every numeric field 0, flags false,
options `None`, the reference list empty. -/
def ObuContext.default (SH FT : Type) : ObuContext SH FT :=
  ⟨none, none, 0, false, false, 0, 0, 0, 0, 0, 0, 0, 0, 0, 0, 0, 0, 0, 0, []⟩

/-- `Frame` from `src/obu/frame.rs`: a fieldless struct. -/
structure Frame where
deriving DecidableEq

/-- `Frame::decode` from `src/obu/frame.rs`: the body is `todo!()`. -/
def Frame.decode {SH FT : Type} (_ctx : ObuContext SH FT) (_buf : Buffer) :
    PResult (Frame × ObuContext SH FT × Buffer) :=
  .todo

/-- `Obu` from `src/obu/mod.rs`: the tagged parse result. -/
inductive Obu (SH : Type) where
  | sequenceHeader (sh : SH)
  | frame (f : Frame)
  | temporalDelimiter
  | drop
deriving DecidableEq

/-- The type of the sequence-header collaborator decoder: it consumes the
context and the cursor and returns the decoded value with the updated
context and cursor (`sequence_header.rs` is absent from the sources, so the
decoder is a parameter at the spec's collaborator interface). -/
def SeqDecoder (SH FT : Type) : Type :=
  ObuContext SH FT → Buffer → PResult (SH × ObuContext SH FT × Buffer)

/-- The dispatch-by-type tail of `ObuParser::parse`: sequence headers and
frames go to their collaborator decoders, temporal delimiters carry no
payload, every other arm of the source `match` is `todo!()`. -/
def ObuParser.dispatch {SH FT : Type} (seqDecode : SeqDecoder SH FT)
    (ctx : ObuContext SH FT) (header : ObuHeader) (buf : Buffer) :
    PResult (Obu SH × ObuContext SH FT × Buffer) :=
  match header.type with
  | .sequenceHeader =>
    match seqDecode ctx buf with
    | .ok (sh, ctx1, buf1) => .ok (.sequenceHeader sh, ctx1, buf1)
    | .err e => .err e
    | .todo => .todo
  | .frame =>
    match Frame.decode ctx buf with
    | .ok (f, ctx1, buf1) => .ok (.frame f, ctx1, buf1)
    | .err e => .err e
    | .todo => .todo
  | .temporalDelimiter => .ok (.temporalDelimiter, ctx, buf)
  | _ => .todo

/-- `ObuParser::parse` from `src/obu/mod.rs`: decode the header, read the
leb128 size when `has_size` is set, apply the scalability-layer drop rule
(note the source computes `(1 >> ext.temporal_id) & 1` and
`(1 >> (ext.spatial_id + 8)) & 1`, shifting the constant `1`), then dispatch
by type. -/
def ObuParser.parse {SH FT : Type} (seqDecode : SeqDecoder SH FT)
    (ctx : ObuContext SH FT) (buf : Buffer) :
    PResult (Obu SH × ObuContext SH FT × Buffer) :=
  match ObuHeader.decode buf with
  | .error e => .err e
  | .ok (header, buf1) =>
    match (if header.has_size then
             match buf1.get_leb128 with
             | .error _ => Except.error ParseError.outOfBounds
             | .ok (v, b) => Except.ok (some v, b)
           else Except.ok (none, buf1) :
           Except ParseError (Option Nat × Buffer)) with
    | .error e => .err e
    | .ok (_size, buf2) =>
      if header.type ≠ ObuType.sequenceHeader ∧
         header.type ≠ ObuType.temporalDelimiter ∧
         ctx.operating_point_idc ≠ 0 then
        match header.extension with
        | some ext =>
          let in_temporal_layer := 1 >>> ext.temporal_id &&& 1
          let in_spatial_layer := 1 >>> (ext.spatial_id + 8) &&& 1
          if in_temporal_layer = 0 ∨ in_spatial_layer = 0 then
            .ok (.drop, ctx, buf2)
          else
            ObuParser.dispatch seqDecode ctx header buf2
        | none => ObuParser.dispatch seqDecode ctx header buf2
      else
        ObuParser.dispatch seqDecode ctx header buf2

/-- A collaborator placeholder whose every call reaches an unimplemented
branch, used for concrete evaluations. -/
def unitSeqDecoder : SeqDecoder Unit Unit := fun _ _ => .todo

/-- A second collaborator placeholder that succeeds without consuming input,
used to check that the drop path never consults the collaborator. -/
def unitSeqDecoder2 : SeqDecoder Unit Unit := fun ctx buf => .ok ((), ctx, buf)

/-- A concrete context selecting operating point `0b0000_0001_0000_0001`. -/
def ctx257 : ObuContext Unit Unit :=
  { ObuContext.default Unit Unit with operating_point_idc := 257 }

theorem bitAt_lt_two (bytes : List Nat) (p : Nat) : bitAt bytes p < 2 :=
  Nat.mod_lt _ (by omega)

theorem readVal_lt (bytes : List Nat) (pos : Nat) : ∀ n, readVal bytes pos n < 2 ^ n
  | 0 => by simp [readVal]
  | n + 1 => by
    have h1 := readVal_lt bytes pos n
    have h2 := bitAt_lt_two bytes (pos + n)
    simp only [readVal, pow_succ]
    omega

theorem Buffer.get_bits_ok {buf : Buffer} {n v : Nat} {b : Buffer}
    (h : buf.get_bits n = .ok (v, b)) :
    v = readVal buf.bytes buf.bit_position n ∧
    b = ⟨buf.bytes, buf.bit_position + n⟩ ∧
    buf.bit_position + n ≤ 8 * buf.bytes.length := by
  unfold Buffer.get_bits at h
  split at h
  · obtain ⟨h1, h2⟩ := Prod.mk.injEq .. ▸ Except.ok.inj h
    exact ⟨h1.symm, h2.symm, by assumption⟩
  · exact nomatch h

theorem Buffer.get_bit_ok {buf : Buffer} {v : Bool} {b : Buffer}
    (h : buf.get_bit = .ok (v, b)) :
    v = (bitAt buf.bytes buf.bit_position == 1) ∧
    b = ⟨buf.bytes, buf.bit_position + 1⟩ ∧
    buf.bit_position + 1 ≤ 8 * buf.bytes.length := by
  unfold Buffer.get_bit at h
  split at h
  · obtain ⟨h1, h2⟩ := Prod.mk.injEq .. ▸ Except.ok.inj h
    exact ⟨h1.symm, h2.symm, by assumption⟩
  · exact nomatch h

theorem Buffer.seek_bits_ok {buf : Buffer} {n : Nat} {b : Buffer}
    (h : buf.seek_bits n = .ok b) :
    b = ⟨buf.bytes, buf.bit_position + n⟩ ∧
    buf.bit_position + n ≤ 8 * buf.bytes.length := by
  unfold Buffer.seek_bits at h
  split at h
  · exact ⟨(Except.ok.inj h).symm, by assumption⟩
  · exact nomatch h

theorem spatialShiftZero (s : Nat) : 1 >>> (s + 8) &&& 1 = 0 := by
  have h : 1 >>> (s + 8) = 0 := by
    rw [Nat.shiftRight_eq_div_pow]
    exact Nat.div_eq_of_lt (Nat.one_lt_two_pow (by omega))
  rw [h]
  rfl

theorem ObuType.tryFrom_total (v : Nat) (h : v < 16) :
    ∃ t, ObuType.tryFrom v = .ok t := by
  unfold ObuType.tryFrom
  interval_cases v <;> simp

theorem ObuHeaderExtension.ext_decode_elim {buf : Buffer} {ext : ObuHeaderExtension} {buf' : Buffer}
    (h : ObuHeaderExtension.decode buf = .ok (ext, buf')) :
    buf'.bytes = buf.bytes ∧ buf'.bit_position = buf.bit_position + 8 ∧
    ext.temporal_id = readVal buf.bytes buf.bit_position 3 ∧
    ext.spatial_id = readVal buf.bytes (buf.bit_position + 3) 2 := by
  unfold ObuHeaderExtension.decode at h
  split at h
  · exact nomatch h
  · rename_i t buf1 h1
    split at h
    · exact nomatch h
    · rename_i s buf2 h2
      split at h
      · exact nomatch h
      · rename_i buf3 h3
        obtain ⟨ht, hbuf1, -⟩ := Buffer.get_bits_ok h1
        subst hbuf1
        obtain ⟨hs, hbuf2, -⟩ := Buffer.get_bits_ok h2
        subst hbuf2
        obtain ⟨hbuf3, -⟩ := Buffer.seek_bits_ok h3
        subst hbuf3
        obtain ⟨hext, hbuf'⟩ := Prod.mk.injEq .. ▸ Except.ok.inj h
        subst hext
        subst hbuf'
        exact ⟨rfl, show buf.bit_position + 3 + 2 + 3 = buf.bit_position + 8 by omega, ht, hs⟩

theorem ObuHeader.header_decode_elim {buf : Buffer} {hdr : ObuHeader} {buf' : Buffer}
    (h : ObuHeader.decode buf = .ok (hdr, buf')) :
    buf'.bytes = buf.bytes ∧
    buf'.bit_position = buf.bit_position + (if hdr.extension.isSome then 16 else 8) ∧
    ObuType.tryFrom (readVal buf.bytes (buf.bit_position + 1) 4) = .ok hdr.type ∧
    hdr.has_size = (bitAt buf.bytes (buf.bit_position + 6) == 1) ∧
    hdr.extension.isSome = (bitAt buf.bytes (buf.bit_position + 5) == 1) ∧
    buf.bit_position + 8 ≤ 8 * buf.bytes.length := by
  unfold ObuHeader.decode at h
  split at h
  · exact nomatch h
  rename_i buf1 h1
  obtain ⟨hbuf1, -⟩ := Buffer.seek_bits_ok h1
  subst hbuf1
  split at h
  · exact nomatch h
  rename_i code buf2 h2
  obtain ⟨hcode, hbuf2, -⟩ := Buffer.get_bits_ok h2
  subst hbuf2
  split at h
  · exact nomatch h
  rename_i ty h3
  split at h
  · exact nomatch h
  rename_i flag buf3 h4
  obtain ⟨hflag, hbuf3, -⟩ := Buffer.get_bit_ok h4
  subst hbuf3
  split at h
  · exact nomatch h
  rename_i hsz buf4 h5
  obtain ⟨hhsz, hbuf4, -⟩ := Buffer.get_bit_ok h5
  subst hbuf4
  split at h
  · exact nomatch h
  rename_i buf5 h6
  obtain ⟨hbuf5, hbound⟩ := Buffer.seek_bits_ok h6
  subst hbuf5
  have hb : buf.bit_position + 7 + 1 ≤ 8 * buf.bytes.length := hbound
  have hc : code = readVal buf.bytes (buf.bit_position + 1) 4 := hcode
  have hf : flag = (bitAt buf.bytes (buf.bit_position + 1 + 4) == 1) := hflag
  have hh : hsz = (bitAt buf.bytes (buf.bit_position + 1 + 4 + 1) == 1) := hhsz
  have e5 : buf.bit_position + 1 + 4 = buf.bit_position + 5 := by omega
  have e6 : buf.bit_position + 1 + 4 + 1 = buf.bit_position + 6 := by omega
  split at h
  · -- extension flag set
    rename_i hflagT
    split at h
    · exact nomatch h
    rename_i ext0 buf6 h7
    obtain ⟨hby, hpos, -, -⟩ := ObuHeaderExtension.ext_decode_elim h7
    obtain ⟨hhdr, hbuf'⟩ := Prod.mk.injEq .. ▸ Except.ok.inj h
    subst hhdr
    subst hbuf'
    have hby2 : buf6.bytes = buf.bytes := hby
    have hp : buf6.bit_position = buf.bit_position + 7 + 1 + 8 := hpos
    refine ⟨hby2, ?_, ?_, ?_, ?_, by omega⟩
    · show buf6.bit_position = buf.bit_position + 16
      omega
    · rw [← hc]
      exact h3
    · show hsz = (bitAt buf.bytes (buf.bit_position + 6) == 1)
      rw [hh, e6]
    · show (some ext0).isSome = (bitAt buf.bytes (buf.bit_position + 5) == 1)
      rw [Option.isSome_some, ← e5, ← hf]
      exact hflagT.symm
  · -- no extension
    rename_i hflagF
    have hff : flag = false := by simpa using hflagF
    obtain ⟨hhdr, hbuf'⟩ := Prod.mk.injEq .. ▸ Except.ok.inj h
    subst hhdr
    subst hbuf'
    refine ⟨rfl, ?_, ?_, ?_, ?_, by omega⟩
    · show buf.bit_position + 7 + 1 = buf.bit_position + 8
      omega
    · rw [← hc]
      exact h3
    · show hsz = (bitAt buf.bytes (buf.bit_position + 6) == 1)
      rw [hh, e6]
    · show (none : Option ObuHeaderExtension).isSome = (bitAt buf.bytes (buf.bit_position + 5) == 1)
      rw [Option.isSome_none, ← e5, ← hf]
      exact hff.symm

theorem ObuHeaderExtension.ext_decode_error_elim {buf : Buffer} {e : ParseError}
    (h : ObuHeaderExtension.decode buf = .error e) : e = .outOfBounds := by
  unfold ObuHeaderExtension.decode at h
  repeat' split at h
  all_goals first
    | exact (Except.error.inj h).symm
    | exact nomatch h

theorem ObuHeader.header_decode_error_elim {buf : Buffer} {e : ParseError}
    (h : ObuHeader.decode buf = .error e) : e = .outOfBounds := by
  unfold ObuHeader.decode at h
  split at h
  · exact (Except.error.inj h).symm
  rename_i buf1 h1
  split at h
  · exact (Except.error.inj h).symm
  rename_i code buf2 h2
  split at h
  · -- the ObuType.try_from arm never fails: the 4-bit code is below 16
    rename_i eo h3
    obtain ⟨hcode, -, -⟩ := Buffer.get_bits_ok h2
    have hlt : code < 16 := by rw [hcode]; simpa using readVal_lt _ _ 4
    obtain ⟨t, ht⟩ := ObuType.tryFrom_total code hlt
    exact nomatch (ht.symm.trans h3)
  rename_i ty h3
  split at h
  · exact (Except.error.inj h).symm
  rename_i flag buf3 h4
  split at h
  · exact (Except.error.inj h).symm
  rename_i hsz buf4 h5
  split at h
  · exact (Except.error.inj h).symm
  rename_i buf5 h6
  split at h
  · split at h
    · rename_i ee h7
      cases Except.error.inj h
      exact ObuHeaderExtension.ext_decode_error_elim h7
    · exact nomatch h
  · exact nomatch h

theorem ObuHeader.decode_oob {buf : Buffer}
    (hk : 8 * buf.bytes.length < buf.bit_position + 8) :
    ObuHeader.decode buf = .error .outOfBounds := by
  cases hd : ObuHeader.decode buf with
  | error e => rw [ObuHeader.header_decode_error_elim hd]
  | ok v =>
    obtain ⟨hdr, buf'⟩ := v
    obtain ⟨-, -, -, -, -, hbound⟩ := ObuHeader.header_decode_elim hd
    omega

theorem ObuParser.dispatch_ne_drop {SH FT : Type} {sd : SeqDecoder SH FT}
    {ctx : ObuContext SH FT} {hdr : ObuHeader} {buf : Buffer}
    {r : Obu SH × ObuContext SH FT × Buffer}
    (h : ObuParser.dispatch sd ctx hdr buf = .ok r) : r.1 ≠ Obu.drop := by
  unfold ObuParser.dispatch at h
  split at h
  · -- sequence header arm
    split at h
    · cases PResult.ok.inj h
      exact fun hc => nomatch hc
    · exact nomatch h
    · exact nomatch h
  · -- frame arm: its collaborator body is unimplemented
    split at h
    · rename_i f ctx1 buf1 heq
      exact nomatch heq
    · exact nomatch h
    · exact nomatch h
  · -- temporal delimiter arm
    cases PResult.ok.inj h
    exact fun hc => nomatch hc
  · exact nomatch h

theorem ObuParser.parse_drop_iff {SH FT : Type} (sd : SeqDecoder SH FT)
    (ctx ctx' : ObuContext SH FT) (buf buf' : Buffer) :
    ObuParser.parse sd ctx buf = .ok (Obu.drop, ctx', buf') ↔
    ctx' = ctx ∧ ctx.operating_point_idc ≠ 0 ∧
    ∃ hdr buf1, ObuHeader.decode buf = .ok (hdr, buf1) ∧
      hdr.type ≠ ObuType.sequenceHeader ∧ hdr.type ≠ ObuType.temporalDelimiter ∧
      hdr.extension.isSome = true ∧
      ((hdr.has_size = true ∧ ∃ v, buf1.get_leb128 = .ok (v, buf')) ∨
       (hdr.has_size = false ∧ buf' = buf1)) := by
  constructor
  · intro h
    unfold ObuParser.parse at h
    split at h
    · exact nomatch h
    rename_i hdr buf1 hdec
    split at h
    · exact nomatch h
    rename_i size buf2 hsz
    split at h
    · rename_i hgate
      split at h
      · rename_i ext hext
        dsimp only at h
        rw [if_pos (Or.inr (spatialShiftZero ext.spatial_id))] at h
        have hinj := PResult.ok.inj h
        rw [Prod.mk.injEq, Prod.mk.injEq] at hinj
        obtain ⟨-, hctx, hbuf⟩ := hinj
        refine ⟨hctx.symm, hgate.2.2, hdr, buf1, hdec, hgate.1, hgate.2.1,
          by simp [hext], ?_⟩
        cases hhs : hdr.has_size with
        | true =>
          rw [hhs, if_pos rfl] at hsz
          split at hsz
          · exact nomatch hsz
          rename_i v b hleb
          have hinj2 := Except.ok.inj hsz
          rw [Prod.mk.injEq] at hinj2
          obtain ⟨-, hb⟩ := hinj2
          exact Or.inl ⟨rfl, v, by rw [hleb, hb, hbuf]⟩
        | false =>
          rw [hhs, if_neg Bool.false_ne_true] at hsz
          have hinj2 := Except.ok.inj hsz
          rw [Prod.mk.injEq] at hinj2
          obtain ⟨-, hb⟩ := hinj2
          exact Or.inr ⟨rfl, by rw [← hbuf, ← hb]⟩
      · exact absurd rfl (ObuParser.dispatch_ne_drop h)
    · exact absurd rfl (ObuParser.dispatch_ne_drop h)
  · rintro ⟨hctx, hidc, hdr, buf1, hdec, ht1, ht2, hexts, hsize⟩
    subst hctx
    obtain ⟨ext, hext⟩ := Option.isSome_iff_exists.mp hexts
    unfold ObuParser.parse
    rw [hdec]
    dsimp only
    rcases hsize with ⟨hhs, v, hleb⟩ | ⟨hhs, hbeq⟩
    · rw [hhs, if_pos rfl, hleb]
      dsimp only
      rw [if_pos ⟨ht1, ht2, hidc⟩, hext]
      dsimp only
      rw [if_pos (Or.inr (spatialShiftZero ext.spatial_id))]
    · subst hbeq
      rw [hhs, if_neg Bool.false_ne_true]
      dsimp only
      rw [if_pos ⟨ht1, ht2, hidc⟩, hext]
      dsimp only
      rw [if_pos (Or.inr (spatialShiftZero ext.spatial_id))]

theorem getD_middle (pre : List Nat) (x : Nat) (suf : List Nat) :
    (pre ++ x :: suf).getD pre.length 0 = x := by
  induction pre with
  | nil => rfl
  | cons a pre ih => simpa using ih

theorem readVal_byte (bytes : List Nat) (j : Nat) :
    readVal bytes (8 * j) 8 = bytes.getD j 0 % 256 := by
  have hb : ∀ t, t < 8 → bitAt bytes (8 * j + t) = bytes.getD j 0 / 2 ^ (7 - t) % 2 := by
    intro t ht
    unfold bitAt
    rw [show (8 * j + t) / 8 = j from by omega, show (8 * j + t) % 8 = t from by omega]
  simp only [readVal]
  rw [hb 0 (by omega), hb 1 (by omega), hb 2 (by omega), hb 3 (by omega),
      hb 4 (by omega), hb 5 (by omega), hb 6 (by omega), hb 7 (by omega)]
  norm_num
  omega

theorem get_bits8_aligned (pre : List Nat) (x : Nat) (suf : List Nat) (hx : x < 256) :
    Buffer.get_bits ⟨pre ++ x :: suf, 8 * pre.length⟩ 8 =
      .ok (x, ⟨pre ++ x :: suf, 8 * pre.length + 8⟩) := by
  have hlen : 8 * pre.length + 8 ≤ 8 * (pre ++ x :: suf).length := by
    simp only [List.length_append, List.length_cons]
    omega
  unfold Buffer.get_bits
  rw [if_pos hlen, readVal_byte, getD_middle, Nat.mod_eq_of_lt hx]

theorem get_leb128_aux_encode :
    ∀ (v fuel i acc : Nat) (pre rest : List Nat),
    (leb128Encode v).length ≤ fuel →
    Buffer.get_leb128_aux fuel i acc ⟨pre ++ leb128Encode v ++ rest, 8 * pre.length⟩ =
      .ok (acc + v * 2 ^ (7 * i),
           ⟨pre ++ leb128Encode v ++ rest,
            8 * pre.length + 8 * (leb128Encode v).length⟩) := by
  intro v
  induction v using Nat.strong_induction_on with
  | _ v ih =>
    intro fuel i acc pre rest hfuel
    by_cases hv : v < 128
    · rw [leb128Encode, dif_pos hv] at hfuel ⊢
      cases fuel with
      | zero => simp at hfuel
      | succ f =>
        rw [Buffer.get_leb128_aux]
        simp only [List.append_assoc, List.singleton_append]
        rw [get_bits8_aligned pre v rest (by omega)]
        dsimp only
        rw [if_pos hv]
        simp [Nat.mod_eq_of_lt hv]
    · rw [leb128Encode, dif_neg hv] at hfuel ⊢
      cases fuel with
      | zero => simp at hfuel
      | succ f =>
        simp only [List.length_cons] at hfuel
        rw [Buffer.get_leb128_aux]
        simp only [List.append_assoc, List.cons_append]
        rw [get_bits8_aligned pre (v % 128 + 128) (leb128Encode (v / 128) ++ rest)
              (by omega)]
        dsimp only
        rw [if_neg (by omega : ¬ v % 128 + 128 < 128)]
        have hpre : pre ++ (v % 128 + 128) :: (leb128Encode (v / 128) ++ rest) =
            (pre ++ [v % 128 + 128]) ++ leb128Encode (v / 128) ++ rest := by
          simp
        have hpos : 8 * pre.length + 8 = 8 * (pre ++ [v % 128 + 128]).length := by
          simp only [List.length_append, List.length_cons, List.length_nil]
          omega
        rw [hpre, hpos,
            ih (v / 128) (Nat.div_lt_self (by omega) (by omega)) f (i + 1)
              (acc + (v % 128 + 128) % 128 * 2 ^ (7 * i))
              (pre ++ [v % 128 + 128]) rest (by omega)]
        have hmod : (v % 128 + 128) % 128 = v % 128 := by omega
        have hval : acc + v % 128 * 2 ^ (7 * i) + v / 128 * 2 ^ (7 * (i + 1)) =
            acc + v * 2 ^ (7 * i) := by
          rw [show 7 * (i + 1) = 7 * i + 7 from by ring, pow_add]
          have h1 : v % 128 + 128 * (v / 128) = v := Nat.mod_add_div v 128
          calc acc + v % 128 * 2 ^ (7 * i) + v / 128 * (2 ^ (7 * i) * 2 ^ 7)
              = acc + (v % 128 + 128 * (v / 128)) * 2 ^ (7 * i) := by ring
            _ = acc + v * 2 ^ (7 * i) := by rw [h1]
        rw [hmod, hval]
        have hfin : 8 * (pre ++ [v % 128 + 128]).length +
              8 * (leb128Encode (v / 128)).length =
            8 * pre.length + 8 * ((v % 128 + 128) :: leb128Encode (v / 128)).length := by
          simp only [List.length_append, List.length_cons, List.length_nil]
          omega
        rw [hfin]

theorem leb128Encode_length_le :
    ∀ (k v : Nat), v < 2 ^ (7 * (k + 1)) → (leb128Encode v).length ≤ k + 1 := by
  intro k
  induction k with
  | zero =>
    intro v hv
    have h128 : v < 128 := by
      have : (2 : Nat) ^ (7 * (0 + 1)) = 128 := by norm_num
      omega
    rw [leb128Encode, dif_pos h128]
    simp
  | succ k ih =>
    intro v hv
    by_cases hc : v < 128
    · rw [leb128Encode, dif_pos hc]
      simp
    · rw [leb128Encode, dif_neg hc]
      simp only [List.length_cons]
      have hdiv : v / 128 < 2 ^ (7 * (k + 1)) := by
        rw [Nat.div_lt_iff_lt_mul (by norm_num : (0 : Nat) < 128)]
        calc v < 2 ^ (7 * (k + 1 + 1)) := hv
          _ = 2 ^ (7 * (k + 1)) * 128 := by
            rw [show 7 * (k + 1 + 1) = 7 * (k + 1) + 7 from by ring, pow_add]
            norm_num
      have := ih (v / 128) hdiv
      omega

theorem Buffer.get_leb128_aux_oob (fuel i acc : Nat) {buf : Buffer}
    (h : 8 * buf.bytes.length < buf.bit_position + 8) :
    Buffer.get_leb128_aux (fuel + 1) i acc buf = .error .outOfBounds := by
  rw [Buffer.get_leb128_aux,
      show buf.get_bits 8 = .error .outOfBounds from by
        unfold Buffer.get_bits
        rw [if_neg (by omega)]]

theorem Buffer.get_leb128_oob {buf : Buffer}
    (h : 8 * buf.bytes.length < buf.bit_position + 8) :
    buf.get_leb128 = .error .outOfBounds :=
  Buffer.get_leb128_aux_oob 7 0 0 h

theorem ObuParser.parse_oob {SH FT : Type} (sd : SeqDecoder SH FT)
    (ctx : ObuContext SH FT) {buf : Buffer}
    (h : 8 * buf.bytes.length < buf.bit_position + 8) :
    ObuParser.parse sd ctx buf = .err .outOfBounds := by
  unfold ObuParser.parse
  rw [ObuHeader.decode_oob h]

/-- C1: the spec claims `parse` drops a gated unit iff bit `temporal_id` or bit
`spatial_id + 8` of `operating_point_idc` is clear, so with
`operating_point_idc = 0b0000_0001_0000_0001` the extension
`{temporal_id := 0, spatial_id := 0}` must be kept. The code instead shifts
the constant `1`, so this unit is dropped: with both claimed membership bits
set (second and third conjunct), `parse` still returns `Obu.drop`. -/
theorem spec_C1_layer_filter_code_eval :
    ObuParser.parse unitSeqDecoder ctx257 ⟨[0x1C, 0x00], 0⟩ =
      .ok (Obu.drop, ctx257, ⟨[0x1C, 0x00], 16⟩) ∧
    ctx257.operating_point_idc >>> 0 &&& 1 = 1 ∧
    ctx257.operating_point_idc >>> (0 + 8) &&& 1 = 1 :=
  ⟨rfl, by decide, by decide⟩

/-- C2: `parse` returns `Obu.drop` only when the unit's type is neither
`SequenceHeader` nor `TemporalDelimiter`, the context's
`operating_point_idc` is nonzero, and the header carries an extension;
consequently with `operating_point_idc = 0` nothing is dropped, and
sequence-header and temporal-delimiter units are never dropped. -/
theorem spec_C2_drop_preconditions :
    (∀ (SH FT : Type) (sd : SeqDecoder SH FT) (ctx ctx' : ObuContext SH FT)
       (buf buf' : Buffer),
       ObuParser.parse sd ctx buf = .ok (Obu.drop, ctx', buf') →
       ctx.operating_point_idc ≠ 0 ∧
       ∃ hdr buf1, ObuHeader.decode buf = .ok (hdr, buf1) ∧
         hdr.type ≠ ObuType.sequenceHeader ∧ hdr.type ≠ ObuType.temporalDelimiter ∧
         hdr.extension.isSome = true) ∧
    (∀ (SH FT : Type) (sd : SeqDecoder SH FT) (ctx : ObuContext SH FT) (buf : Buffer)
       (r : Obu SH × ObuContext SH FT × Buffer),
       ctx.operating_point_idc = 0 → ObuParser.parse sd ctx buf = .ok r →
       r.1 ≠ Obu.drop) ∧
    (∀ (SH FT : Type) (sd : SeqDecoder SH FT) (ctx : ObuContext SH FT) (buf : Buffer)
       (hdr : ObuHeader) (buf1 : Buffer) (r : Obu SH × ObuContext SH FT × Buffer),
       ObuHeader.decode buf = .ok (hdr, buf1) →
       (hdr.type = ObuType.sequenceHeader ∨ hdr.type = ObuType.temporalDelimiter) →
       ObuParser.parse sd ctx buf = .ok r → r.1 ≠ Obu.drop) := by
  refine ⟨?_, ?_, ?_⟩
  · intro SH FT sd ctx ctx' buf buf' h
    obtain ⟨-, hidc, hdr, buf1, hdec, ht1, ht2, hext, -⟩ :=
      (ObuParser.parse_drop_iff sd ctx ctx' buf buf').mp h
    exact ⟨hidc, hdr, buf1, hdec, ht1, ht2, hext⟩
  · intro SH FT sd ctx buf r hidc hp hdrop
    obtain ⟨o, c, b⟩ := r
    have ho : o = Obu.drop := hdrop
    subst ho
    obtain ⟨-, hidc', -⟩ := (ObuParser.parse_drop_iff sd ctx c buf b).mp hp
    exact hidc' hidc
  · intro SH FT sd ctx buf hdr buf1 r hdec hty hp hdrop
    obtain ⟨o, c, b⟩ := r
    have ho : o = Obu.drop := hdrop
    subst ho
    obtain ⟨-, -, hdr', buf1', hdec', ht1, ht2, -, -⟩ :=
      (ObuParser.parse_drop_iff sd ctx c buf b).mp hp
    rw [hdec] at hdec'
    obtain ⟨hh, -⟩ := Prod.mk.injEq .. ▸ Except.ok.inj hdec'
    subst hh
    rcases hty with h | h
    · exact ht1 h
    · exact ht2 h

/-- Witness for C2: the first part applied at a dropped frame-header unit, the
second at a sequence-header unit parsed with `operating_point_idc = 0`, the
third at a temporal delimiter. -/
theorem spec_C2_drop_preconditions_witness :
    (ctx257.operating_point_idc ≠ 0 ∧
     ∃ hdr buf1, ObuHeader.decode ⟨[0x1C, 0x00], 0⟩ = .ok (hdr, buf1) ∧
       hdr.type ≠ ObuType.sequenceHeader ∧ hdr.type ≠ ObuType.temporalDelimiter ∧
       hdr.extension.isSome = true) ∧
    ((Obu.sequenceHeader (), ObuContext.default Unit Unit,
        (⟨[0x08], 8⟩ : Buffer)).1 ≠ Obu.drop) ∧
    (((Obu.temporalDelimiter : Obu Unit), ObuContext.default Unit Unit,
        (⟨[0x10], 8⟩ : Buffer)).1 ≠ Obu.drop) :=
  ⟨spec_C2_drop_preconditions.1 Unit Unit unitSeqDecoder ctx257 ctx257
      ⟨[0x1C, 0x00], 0⟩ ⟨[0x1C, 0x00], 16⟩ rfl,
   spec_C2_drop_preconditions.2.1 Unit Unit unitSeqDecoder2
      (ObuContext.default Unit Unit) ⟨[0x08], 0⟩
      (Obu.sequenceHeader (), ObuContext.default Unit Unit, ⟨[0x08], 8⟩) rfl rfl,
   spec_C2_drop_preconditions.2.2 Unit Unit unitSeqDecoder
      (ObuContext.default Unit Unit) ⟨[0x10], 0⟩
      ⟨ObuType.temporalDelimiter, false, none⟩ ⟨[0x10], 8⟩
      (Obu.temporalDelimiter, ObuContext.default Unit Unit, ⟨[0x10], 8⟩)
      rfl (Or.inr rfl) rfl⟩

/-- C3: every cursor read or seek whose consumption would advance the bit
position past `8 * bytes.length` fails with the typed out-of-bounds error —
`get_bit`, `get_bits n`, `seek_bits n`, and `get_leb128` alike — the error
propagates out of the enclosing `parse` call, and in particular reading
9 bits with fewer than 9 bits remaining fails with the bounds error and
produces no partial value. -/
theorem spec_C3_out_of_bounds :
    (∀ buf : Buffer, 8 * buf.bytes.length < buf.bit_position + 1 →
       buf.get_bit = .error .outOfBounds) ∧
    (∀ (buf : Buffer) (n : Nat), 8 * buf.bytes.length < buf.bit_position + n →
       buf.get_bits n = .error .outOfBounds) ∧
    (∀ (buf : Buffer) (n : Nat), 8 * buf.bytes.length < buf.bit_position + n →
       buf.seek_bits n = .error .outOfBounds) ∧
    (∀ buf : Buffer, 8 * buf.bytes.length < buf.bit_position + 8 →
       buf.get_leb128 = .error .outOfBounds) ∧
    (∀ (SH FT : Type) (sd : SeqDecoder SH FT) (ctx : ObuContext SH FT) (buf : Buffer),
       8 * buf.bytes.length < buf.bit_position + 8 →
       ObuParser.parse sd ctx buf = .err .outOfBounds) ∧
    (∀ buf : Buffer, 8 * buf.bytes.length < buf.bit_position + 9 →
       buf.get_bits 9 = .error .outOfBounds) := by
  refine ⟨?_, ?_, ?_, ?_, ?_, ?_⟩
  · intro buf h
    unfold Buffer.get_bit
    rw [if_neg (by omega)]
  · intro buf n h
    unfold Buffer.get_bits
    rw [if_neg (by omega)]
  · intro buf n h
    unfold Buffer.seek_bits
    rw [if_neg (by omega)]
  · intro buf h
    exact Buffer.get_leb128_oob h
  · intro SH FT sd ctx buf h
    exact ObuParser.parse_oob sd ctx h
  · intro buf h
    unfold Buffer.get_bits
    rw [if_neg (by omega)]

/-- Witness for C3: concrete out-of-bounds failures, including the 9-bit read
from a one-byte cursor. -/
theorem spec_C3_out_of_bounds_witness :
    Buffer.get_bits ⟨[0xFF], 0⟩ 9 = .error .outOfBounds ∧
    Buffer.get_bit ⟨[], 0⟩ = .error .outOfBounds ∧
    Buffer.seek_bits ⟨[0xFF], 1⟩ 8 = .error .outOfBounds ∧
    Buffer.get_leb128 ⟨[0xFF], 1⟩ = .error .outOfBounds ∧
    ObuParser.parse unitSeqDecoder (ObuContext.default Unit Unit) ⟨[0xFF], 1⟩ =
      .err .outOfBounds :=
  ⟨spec_C3_out_of_bounds.2.2.2.2.2 ⟨[0xFF], 0⟩ (by decide),
   spec_C3_out_of_bounds.1 ⟨[], 0⟩ (by decide),
   spec_C3_out_of_bounds.2.2.1 ⟨[0xFF], 1⟩ 8 (by decide),
   spec_C3_out_of_bounds.2.2.2.1 ⟨[0xFF], 1⟩ (by decide),
   spec_C3_out_of_bounds.2.2.2.2.1 Unit Unit unitSeqDecoder
     (ObuContext.default Unit Unit) ⟨[0xFF], 1⟩ (by decide)⟩

/-- C4: `ObuHeader::decode` reads the forbidden bit, the 4-bit type code
(through `ObuType::try_from`), the extension flag, the has-size flag, and the
reserved bit, then conditionally the one-byte extension; it consumes exactly
8 bits without the extension and 16 bits with it, and the single header byte
`0x10` yields `TemporalDelimiter`, `has_size = false`, `extension = none`. -/
theorem spec_C4_header_decode :
    (∀ (buf : Buffer) (hdr : ObuHeader) (buf' : Buffer),
       ObuHeader.decode buf = .ok (hdr, buf') →
       buf'.bytes = buf.bytes ∧
       buf'.bit_position = buf.bit_position + (if hdr.extension.isSome then 16 else 8) ∧
       ObuType.tryFrom (readVal buf.bytes (buf.bit_position + 1) 4) = .ok hdr.type ∧
       hdr.has_size = (bitAt buf.bytes (buf.bit_position + 6) == 1) ∧
       hdr.extension.isSome = (bitAt buf.bytes (buf.bit_position + 5) == 1)) ∧
    ObuHeader.decode ⟨[0x10], 0⟩ =
      .ok (⟨ObuType.temporalDelimiter, false, none⟩, ⟨[0x10], 8⟩) := by
  refine ⟨?_, rfl⟩
  intro buf hdr buf' h
  obtain ⟨h1, h2, h3, h4, h5, -⟩ := ObuHeader.header_decode_elim h
  exact ⟨h1, h2, h3, h4, h5⟩

/-- Witness for C4: the consumption statement applied at the header byte
`0x10`. -/
theorem spec_C4_header_decode_witness :
    (⟨[0x10], 8⟩ : Buffer).bytes = (⟨[0x10], 0⟩ : Buffer).bytes ∧
    (⟨[0x10], 8⟩ : Buffer).bit_position = (⟨[0x10], 0⟩ : Buffer).bit_position +
      (if (⟨ObuType.temporalDelimiter, false, none⟩ : ObuHeader).extension.isSome
       then 16 else 8) ∧
    ObuType.tryFrom (readVal [0x10] (0 + 1) 4) =
      .ok (⟨ObuType.temporalDelimiter, false, none⟩ : ObuHeader).type ∧
    (⟨ObuType.temporalDelimiter, false, none⟩ : ObuHeader).has_size =
      (bitAt [0x10] (0 + 6) == 1) ∧
    (⟨ObuType.temporalDelimiter, false, none⟩ : ObuHeader).extension.isSome =
      (bitAt [0x10] (0 + 5) == 1) :=
  spec_C4_header_decode.1 ⟨[0x10], 0⟩ ⟨ObuType.temporalDelimiter, false, none⟩
    ⟨[0x10], 8⟩ rfl

/-- C5: `ObuHeaderExtension::decode` reads a 3-bit `temporal_id`, a 2-bit
`spatial_id`, and skips 3 reserved bits, consuming exactly 8 bits; the
extension byte `0b010_01_000` yields `temporal_id = 2`, `spatial_id = 1`, and
after a header with the extension flag set total consumption is 16 bits. -/
theorem spec_C5_extension_decode :
    (∀ (buf : Buffer) (ext : ObuHeaderExtension) (buf' : Buffer),
       ObuHeaderExtension.decode buf = .ok (ext, buf') →
       buf'.bytes = buf.bytes ∧ buf'.bit_position = buf.bit_position + 8 ∧
       ext.temporal_id = readVal buf.bytes buf.bit_position 3 ∧
       ext.spatial_id = readVal buf.bytes (buf.bit_position + 3) 2) ∧
    ObuHeaderExtension.decode ⟨[0x48], 0⟩ = .ok (⟨2, 1⟩, ⟨[0x48], 8⟩) ∧
    ObuHeader.decode ⟨[0x1C, 0x48], 0⟩ =
      .ok (⟨ObuType.frameHeader, false, some ⟨2, 1⟩⟩, ⟨[0x1C, 0x48], 16⟩) :=
  ⟨fun _ _ _ h => ObuHeaderExtension.ext_decode_elim h, rfl, rfl⟩

/-- Witness for C5: the field and consumption statement applied at the
extension byte `0x48`. -/
theorem spec_C5_extension_decode_witness :
    (⟨[0x48], 8⟩ : Buffer).bytes = (⟨[0x48], 0⟩ : Buffer).bytes ∧
    (⟨[0x48], 8⟩ : Buffer).bit_position = (⟨[0x48], 0⟩ : Buffer).bit_position + 8 ∧
    (⟨2, 1⟩ : ObuHeaderExtension).temporal_id = readVal [0x48] 0 3 ∧
    (⟨2, 1⟩ : ObuHeaderExtension).spatial_id = readVal [0x48] (0 + 3) 2 :=
  spec_C5_extension_decode.1 ⟨[0x48], 0⟩ ⟨2, 1⟩ ⟨[0x48], 8⟩ rfl

/-- C6: for every value `v < 2^32`, decoding the standard little-endian
base-128 encoding of `v` from any byte-aligned position returns exactly `v`
and leaves the cursor at the first byte past the terminating
(high-bit-clear) byte. -/
theorem spec_C6_leb128_round_trip (v : Nat) (hv : v < 2 ^ 32) (pre rest : List Nat) :
    Buffer.get_leb128 ⟨pre ++ leb128Encode v ++ rest, 8 * pre.length⟩ =
      .ok (v, ⟨pre ++ leb128Encode v ++ rest,
               8 * pre.length + 8 * (leb128Encode v).length⟩) := by
  have hlen : (leb128Encode v).length ≤ 5 := by
    refine leb128Encode_length_le 4 v (lt_of_lt_of_le hv ?_)
    norm_num
  have h := get_leb128_aux_encode v 8 0 0 pre rest (by omega)
  unfold Buffer.get_leb128
  simpa using h

/-- Witness for C6: the round trip at `v = 300` with a nonempty prefix and
suffix. -/
theorem spec_C6_leb128_round_trip_witness :
    Buffer.get_leb128 ⟨[1] ++ leb128Encode 300 ++ [2], 8 * [(1 : Nat)].length⟩ =
      .ok (300, ⟨[1] ++ leb128Encode 300 ++ [2],
                 8 * [(1 : Nat)].length + 8 * (leb128Encode 300).length⟩) :=
  spec_C6_leb128_round_trip 300 (by norm_num) [1] [2]

/-- C7: whenever `parse` returns `Obu.drop`, the decode context is returned
unchanged, the result is identical under any other collaborator decoder (so
no collaborator was consulted), and the cursor has consumed exactly the
header plus the size field when present, standing at the start of the
undecoded payload. -/
theorem spec_C7_drop_frame_effect {SH FT : Type} (sd sd2 : SeqDecoder SH FT)
    (ctx ctx' : ObuContext SH FT) (buf buf' : Buffer)
    (h : ObuParser.parse sd ctx buf = .ok (Obu.drop, ctx', buf')) :
    ctx' = ctx ∧
    ObuParser.parse sd2 ctx buf = .ok (Obu.drop, ctx, buf') ∧
    ∃ hdr buf1, ObuHeader.decode buf = .ok (hdr, buf1) ∧
      ((hdr.has_size = true ∧ ∃ v, buf1.get_leb128 = .ok (v, buf')) ∨
       (hdr.has_size = false ∧ buf' = buf1)) := by
  obtain ⟨hctx, hidc, hdr, buf1, hdec, ht1, ht2, hext, hsz⟩ :=
    (ObuParser.parse_drop_iff sd ctx ctx' buf buf').mp h
  refine ⟨hctx, ?_, hdr, buf1, hdec, hsz⟩
  exact (ObuParser.parse_drop_iff sd2 ctx ctx buf buf').mpr
    ⟨rfl, hidc, hdr, buf1, hdec, ht1, ht2, hext, hsz⟩

/-- Witness for C7: the dropped frame-header unit `[0x1C, 0x00]` under
`operating_point_idc = 257`, checked against a different collaborator. -/
theorem spec_C7_drop_frame_effect_witness :
    ctx257 = ctx257 ∧
    ObuParser.parse unitSeqDecoder2 ctx257 ⟨[0x1C, 0x00], 0⟩ =
      .ok (Obu.drop, ctx257, ⟨[0x1C, 0x00], 16⟩) ∧
    ∃ hdr buf1, ObuHeader.decode ⟨[0x1C, 0x00], 0⟩ = .ok (hdr, buf1) ∧
      ((hdr.has_size = true ∧
          ∃ v, buf1.get_leb128 = .ok (v, (⟨[0x1C, 0x00], 16⟩ : Buffer))) ∨
       (hdr.has_size = false ∧ (⟨[0x1C, 0x00], 16⟩ : Buffer) = buf1)) :=
  spec_C7_drop_frame_effect unitSeqDecoder unitSeqDecoder2 ctx257 ctx257
    ⟨[0x1C, 0x00], 0⟩ ⟨[0x1C, 0x00], 16⟩ rfl

/-- C8: a unit whose decoded header type is `TemporalDelimiter` makes `parse`
return `Obu.TemporalDelimiter` with the context unchanged and the cursor
exactly past the header (plus the size field when `has_size` is set),
independently of any collaborator decoder. -/
theorem spec_C8_temporal_delimiter {SH FT : Type} (sd : SeqDecoder SH FT)
    (ctx : ObuContext SH FT) (buf : Buffer) (hdr : ObuHeader) (buf1 : Buffer)
    (hdec : ObuHeader.decode buf = .ok (hdr, buf1))
    (hty : hdr.type = ObuType.temporalDelimiter) :
    (hdr.has_size = false →
       ObuParser.parse sd ctx buf = .ok (.temporalDelimiter, ctx, buf1)) ∧
    (∀ v buf2, hdr.has_size = true → buf1.get_leb128 = .ok (v, buf2) →
       ObuParser.parse sd ctx buf = .ok (.temporalDelimiter, ctx, buf2)) := by
  constructor
  · intro hhs
    unfold ObuParser.parse
    rw [hdec]
    dsimp only
    rw [hhs, if_neg Bool.false_ne_true]
    dsimp only
    rw [if_neg (by simp [hty])]
    unfold ObuParser.dispatch
    rw [hty]
  · intro v buf2 hhs hleb
    unfold ObuParser.parse
    rw [hdec]
    dsimp only
    rw [hhs, if_pos rfl, hleb]
    dsimp only
    rw [if_neg (by simp [hty])]
    unfold ObuParser.dispatch
    rw [hty]

/-- Witness for C8: the temporal-delimiter unit `[0x12, 0x00]` (has-size set,
size 0) consumes header plus size field and yields `Obu.TemporalDelimiter`. -/
theorem spec_C8_temporal_delimiter_witness :
    ObuParser.parse unitSeqDecoder (ObuContext.default Unit Unit) ⟨[0x12, 0x00], 0⟩ =
      .ok (Obu.temporalDelimiter, ObuContext.default Unit Unit, ⟨[0x12, 0x00], 16⟩) :=
  (spec_C8_temporal_delimiter unitSeqDecoder (ObuContext.default Unit Unit)
      ⟨[0x12, 0x00], 0⟩ ⟨ObuType.temporalDelimiter, true, none⟩ ⟨[0x12, 0x00], 8⟩
      rfl rfl).2 0 ⟨[0x12, 0x00], 16⟩ rfl rfl

/-- C9: `ObuType::try_from` succeeds on every 4-bit value, with 0 and 9..=14
mapping to `Reserved` carrying the raw code, and since the type field is only
4 bits wide, `ObuHeader::decode` can never surface the
`Unknown(ObuHeaderType)` error. -/
theorem spec_C9_obu_type_total :
    (∀ v, v < 16 → ∃ t, ObuType.tryFrom v = .ok t) ∧
    (∀ v, v = 0 ∨ (9 ≤ v ∧ v ≤ 14) → ObuType.tryFrom v = .ok (.reserved v)) ∧
    (∀ buf : Buffer, ObuHeader.decode buf ≠ .error (.obu (.unknown .obuHeaderType))) := by
  refine ⟨ObuType.tryFrom_total, ?_, ?_⟩
  · intro v hv
    unfold ObuType.tryFrom
    rw [if_pos hv]
  · intro buf h
    exact nomatch (ObuHeader.header_decode_error_elim h)

/-- Witness for C9: totality at 2 and 9, and no unknown-type error on an
empty cursor. -/
theorem spec_C9_obu_type_total_witness :
    (∃ t, ObuType.tryFrom 2 = .ok t) ∧
    ObuType.tryFrom 9 = .ok (.reserved 9) ∧
    ObuHeader.decode ⟨[], 0⟩ ≠ .error (.obu (.unknown .obuHeaderType)) :=
  ⟨spec_C9_obu_type_total.1 2 (by omega),
   spec_C9_obu_type_total.2.1 9 (by omega),
   spec_C9_obu_type_total.2.2 ⟨[], 0⟩⟩

/-- C10: a unit whose header type is `FrameHeader`, `TileGroup`, `Metadata`,
`RedundantFrameHeader`, `TileList`, `Padding`, or `Reserved` — and likewise
`Frame`, whose collaborator body is an unimplemented stub — makes `parse`
reach an unimplemented `todo!()` branch (neither an `Obu` value nor an
`ObuError`) whenever the unit is not dropped by the layer filter and the
size field read succeeds. -/
theorem spec_C10_unimplemented_types {SH FT : Type} (sd : SeqDecoder SH FT)
    (ctx : ObuContext SH FT) (buf : Buffer) (hdr : ObuHeader) (buf1 : Buffer)
    (hdec : ObuHeader.decode buf = .ok (hdr, buf1))
    (hty : hdr.type = ObuType.frameHeader ∨ hdr.type = ObuType.tileGroup ∨
           hdr.type = ObuType.metadata ∨ hdr.type = ObuType.redundantFrameHeader ∨
           hdr.type = ObuType.tileList ∨ hdr.type = ObuType.padding ∨
           (∃ c, hdr.type = ObuType.reserved c) ∨ hdr.type = ObuType.frame)
    (hsize : hdr.has_size = false ∨ ∃ v buf2, buf1.get_leb128 = .ok (v, buf2))
    (hnodrop : ∀ ctx' buf', ObuParser.parse sd ctx buf ≠ .ok (Obu.drop, ctx', buf')) :
    ObuParser.parse sd ctx buf = .todo := by
  have hdispatch : ∀ b : Buffer, ObuParser.dispatch sd ctx hdr b = .todo := by
    intro b
    unfold ObuParser.dispatch
    rcases hty with h | h | h | h | h | h | ⟨c, h⟩ | h <;> (rw [h]; try rfl)
  cases hhs : hdr.has_size with
  | false =>
    unfold ObuParser.parse
    rw [hdec]
    dsimp only
    rw [hhs, if_neg Bool.false_ne_true]
    dsimp only
    by_cases hgate : hdr.type ≠ ObuType.sequenceHeader ∧
        hdr.type ≠ ObuType.temporalDelimiter ∧ ctx.operating_point_idc ≠ 0
    · rw [if_pos hgate]
      cases hext : hdr.extension with
      | none => exact hdispatch buf1
      | some ext =>
        exact absurd
          ((ObuParser.parse_drop_iff sd ctx ctx buf buf1).mpr
            ⟨rfl, hgate.2.2, hdr, buf1, hdec, hgate.1, hgate.2.1, by simp [hext],
             Or.inr ⟨hhs, rfl⟩⟩)
          (hnodrop ctx buf1)
    · rw [if_neg hgate]
      exact hdispatch buf1
  | true =>
    rcases hsize with hfalse | ⟨v, buf2, hleb⟩
    · exact nomatch (hhs.symm.trans hfalse)
    unfold ObuParser.parse
    rw [hdec]
    dsimp only
    rw [hhs, if_pos rfl, hleb]
    dsimp only
    by_cases hgate : hdr.type ≠ ObuType.sequenceHeader ∧
        hdr.type ≠ ObuType.temporalDelimiter ∧ ctx.operating_point_idc ≠ 0
    · rw [if_pos hgate]
      cases hext : hdr.extension with
      | none => exact hdispatch buf2
      | some ext =>
        exact absurd
          ((ObuParser.parse_drop_iff sd ctx ctx buf buf2).mpr
            ⟨rfl, hgate.2.2, hdr, buf1, hdec, hgate.1, hgate.2.1, by simp [hext],
             Or.inl ⟨hhs, v, hleb⟩⟩)
          (hnodrop ctx buf2)
    · rw [if_neg hgate]
      exact hdispatch buf2

/-- Witness for C10: the frame-header unit `[0x18]` (no extension, no size)
with the default context reaches the unimplemented branch. -/
theorem spec_C10_unimplemented_types_witness :
    ObuParser.parse unitSeqDecoder (ObuContext.default Unit Unit) ⟨[0x18], 0⟩ =
      .todo :=
  spec_C10_unimplemented_types unitSeqDecoder (ObuContext.default Unit Unit)
    ⟨[0x18], 0⟩ ⟨ObuType.frameHeader, false, none⟩ ⟨[0x18], 8⟩ rfl
    (Or.inl rfl) (Or.inl rfl) (fun _ _ h => nomatch h)
